import Mathlib

/-!
Shallow embedding of `src/src/components/TreasurySimulator.tsx`
(odokclement/treasury-movement-simulator).

Conventions of the embedding:
* JavaScript numbers are modelled by `ℚ` (the program performs only
  `+ - * /` on finite decimal inputs); `parseFloat` returning `NaN` is
  modelled by `Option ℚ = none`.  The special string "Infinity", which JS
  `parseFloat` maps to the floating-point infinity, has no rational value
  and is modelled as `none`.
* `Date.now()` (epoch milliseconds) is an environment input: each transfer
  submission is given an explicit `now : ℤ`.  `Date.now().toString()` is
  modelled by that integer (JS renders it in decimal); the ISO timestamp
  string is likewise modelled by its epoch-millisecond value.
* A date string `"YYYY-MM-DD"` in the filters is modelled by the epoch
  value of `new Date("YYYY-MM-DD")` (midnight starting that day);
  `new Date(d + "T23:59:59")` is that value plus `86399000` ms.  An empty
  date-filter string is `none`.
* JS falsiness of strings (`""`), of `undefined` and of the number `0` is
  modelled explicitly at each use site, matching the source expression.
-/

/- Batteries marks the `Rat` field operations irreducible, which blocks
kernel evaluation of concrete states by `decide`; restore the default
reducibility so that the executable definitions below evaluate. -/
set_option allowUnsafeReducibility true in
attribute [semireducible] Rat.mul Rat.add Rat.sub Rat.neg Rat.inv Rat.div Rat.ofScientific

inductive Currency where
  | KES
  | USD
  | NGN
deriving DecidableEq, Repr

def currencyStr : Currency → String
  | .KES => "KES"
  | .USD => "USD"
  | .NGN => "NGN"

structure Account where
  id : String
  name : String
  currency : Currency
  balance : ℚ
deriving DecidableEq, Repr

inductive Status where
  | Completed
  | Scheduled
deriving DecidableEq, Repr

structure Transaction where
  id : ℤ
  timestamp : ℤ
  fromAccount : String
  toAccount : String
  fromCurrency : Currency
  toCurrency : Currency
  amount : ℚ
  convertedAmount : ℚ
  fxRate : ℚ
  note : String
  scheduledDate : Option String
  status : Status
deriving DecidableEq, Repr

structure TransferForm where
  fromAccount : String
  toAccount : String
  amount : String
  note : String
  scheduledDate : String
deriving DecidableEq, Repr

structure Filters where
  account : String
  currency : String
  dateFrom : Option ℤ
  dateTo : Option ℤ
deriving DecidableEq, Repr

/-- The static FX rate object `FX_RATES` of the source, as a key lookup. -/
def FX_RATES (key : String) : Option ℚ :=
  if key = "KES-USD" then some 0.0067
  else if key = "USD-KES" then some 149.25
  else if key = "KES-NGN" then some 0.27
  else if key = "NGN-KES" then some 3.70
  else if key = "USD-NGN" then some 1580.00
  else if key = "NGN-USD" then some 0.00063
  else none

/-- The template literal rateKey of `calculateFXConversion`. -/
def rateKey (fromCurrency toCurrency : Currency) : String :=
  currencyStr fromCurrency ++ "-" ++ currencyStr toCurrency

/-- `calculateFXConversion` of the source.  `if (!rate) return null` is a JS
falsiness check: it fires when the lookup is `undefined` and also when the
stored rate is the number `0`. -/
def calculateFXConversion (amount : ℚ) (fromCurrency toCurrency : Currency) :
    Option ℚ :=
  if fromCurrency = toCurrency then some amount
  else
    match FX_RATES (rateKey fromCurrency toCurrency) with
    | none => none
    | some rate => if rate = 0 then none else some (amount * rate)

/-- The `initialAccounts` seed list of the source. -/
def initialAccounts : List Account :=
  [⟨"mpesa_kes_1", "Mpesa_KES_1", .KES, 2500000⟩,
   ⟨"mpesa_kes_2", "Mpesa_KES_2", .KES, 1800000⟩,
   ⟨"bank_kes_1", "Bank_KES_1", .KES, 5200000⟩,
   ⟨"bank_usd_1", "Bank_USD_1", .USD, 45000⟩,
   ⟨"bank_usd_2", "Bank_USD_2", .USD, 78000⟩,
   ⟨"bank_usd_3", "Bank_USD_3", .USD, 32000⟩,
   ⟨"flutterwave_ngn_1", "Flutterwave_NGN_1", .NGN, 15000000⟩,
   ⟨"flutterwave_ngn_2", "Flutterwave_NGN_2", .NGN, 8500000⟩,
   ⟨"paystack_ngn_1", "Paystack_NGN_1", .NGN, 12000000⟩,
   ⟨"wise_usd_1", "Wise_USD_1", .USD, 95000⟩]

/-! ## parseFloat

A model of the ECMAScript `parseFloat` builtin on the strings the form can
hold: skip leading whitespace, then take the longest prefix that is a
decimal literal (optional sign, digits, optional fraction, optional
exponent) and return its exact rational value; `none` when no such prefix
exists (JS `NaN`).  The `Infinity` literal is outside the rational model
(see the header comment). -/

def digitVal (c : Char) : Nat := c.toNat - 48

/-- Consume a maximal run of digits, returning the accumulated value, the
number of digits consumed, and the rest of the input. -/
def readDigits : List Char → Nat → Nat → Nat × Nat × List Char
  | [], acc, n => (acc, n, [])
  | c :: cs, acc, n =>
    if c.isDigit then readDigits cs (10 * acc + digitVal c) (n + 1)
    else (acc, n, c :: cs)

def isSpaceChar (c : Char) : Bool :=
  c = ' ' || c = '\t' || c = '\n' || c = '\r'

def parseSign : List Char → ℚ × List Char
  | '-' :: cs => (-1, cs)
  | '+' :: cs => (1, cs)
  | cs => (1, cs)

/-- The exponent part after a consumed `e`/`E`; an `e` not followed by at
least one digit is not part of the number (exponent 0). -/
def parseExpTail (cs : List Char) : ℤ :=
  let signRest : ℤ × List Char :=
    match cs with
    | '-' :: r => (-1, r)
    | '+' :: r => (1, r)
    | _ => (1, cs)
  let v := readDigits signRest.2 0 0
  if v.2.1 = 0 then 0 else signRest.1 * v.1

def parseExp (cs : List Char) : ℤ :=
  match cs with
  | 'e' :: rest => parseExpTail rest
  | 'E' :: rest => parseExpTail rest
  | _ => 0

def parseFloatChars (cs : List Char) : Option ℚ :=
  let cs1 := cs.dropWhile isSpaceChar
  let sgn := parseSign cs1
  let ip := readDigits sgn.2 0 0
  let fp : Nat × Nat × List Char :=
    match ip.2.2 with
    | '.' :: rest => readDigits rest 0 0
    | _ => (0, 0, ip.2.2)
  if ip.2.1 = 0 ∧ fp.2.1 = 0 then none
  else
    let mant : ℚ := (ip.1 : ℚ) + (fp.1 : ℚ) / ((10 : ℚ) ^ fp.2.1)
    some (sgn.1 * mant * (10 : ℚ) ^ parseExp fp.2.2)

def parseFloat (s : String) : Option ℚ := parseFloatChars s.toList

/-! ## Component state and the transfer operation -/

/-- The three pieces of component state the transfer engine touches
(`accounts`, `transactions`, `transferForm`). -/
structure LedgerState where
  accounts : List Account
  transactions : List Transaction
  transferForm : TransferForm
deriving DecidableEq, Repr

/-- The reset value of the transfer form. -/
def emptyForm : TransferForm := ⟨"", "", "", "", ""⟩

/-- The initial component state. -/
def seedState : LedgerState :=
  { accounts := initialAccounts, transactions := [], transferForm := emptyForm }

/-- The error taxonomy; each constructor corresponds to one `setError`
call site of `handleTransfer`. -/
inductive TransferError where
  | MissingField
  | SameAccount
  | InvalidAmount
  | UnknownAccount
  | InsufficientBalance
  | UnsupportedCurrencyPair
deriving DecidableEq, Repr

/-- The message string each error maps to in the source. -/
def errorMessage : TransferError → String
  | .MissingField => "Please fill in all required fields"
  | .SameAccount => "Source and destination accounts must be different"
  | .InvalidAmount => "Please enter a valid amount"
  | .UnknownAccount => "Invalid account selection"
  | .InsufficientBalance => "Insufficient balance in source account"
  | .UnsupportedCurrencyPair => "Currency conversion not supported for this pair"

inductive TransferResult where
  | failure (e : TransferError)
  | success (s : LedgerState)
deriving DecidableEq, Repr

/-- The per-account update function inside `accounts.map` of
`handleTransfer`. -/
def updateBalances (form : TransferForm) (amount convertedAmount : ℚ)
    (acc : Account) : Account :=
  if acc.id = form.fromAccount then { acc with balance := acc.balance - amount }
  else if acc.id = form.toAccount then
    { acc with balance := acc.balance + convertedAmount }
  else acc

/-- The `newTransaction` record literal of `handleTransfer`:
`id` is `Date.now().toString()`, `timestamp` is `new Date().toISOString()`,
both modelled by the epoch value `now`; `scheduledDate || null` and the
status ternary are JS falsiness on the scheduled-date string. -/
def mkTransaction (now : ℤ) (form : TransferForm) (fromAcc toAcc : Account)
    (amount convertedAmount fxRate : ℚ) : Transaction :=
  { id := now
    timestamp := now
    fromAccount := fromAcc.name
    toAccount := toAcc.name
    fromCurrency := fromAcc.currency
    toCurrency := toAcc.currency
    amount := amount
    convertedAmount := convertedAmount
    fxRate := fxRate
    note := form.note
    scheduledDate := if form.scheduledDate = "" then none else some form.scheduledDate
    status := if form.scheduledDate = "" then .Completed else .Scheduled }

/-- The `convertedAmount`/`fxRate` block of `handleTransfer`: both start as
`amount`/`1` and are reassigned only when the currencies differ, in which
case `if (!converted)` (JS falsiness: null or the number 0) aborts, else
`fxRate = convertedAmount / amount`. -/
def convPair (amount : ℚ) (fromAcc toAcc : Account) : Option (ℚ × ℚ) :=
  if fromAcc.currency = toAcc.currency then some (amount, 1)
  else
    match calculateFXConversion amount fromAcc.currency toAcc.currency with
    | none => none
    | some c => if c = 0 then none else some (c, c / amount)

/-- `handleTransfer` of the source.  The validation sequence, the mutation
of `accounts`, the prepend to `transactions` and the form reset follow the
code line by line. -/
def handleTransfer (now : ℤ) (s : LedgerState) : TransferResult :=
  if s.transferForm.fromAccount = "" ∨ s.transferForm.toAccount = "" ∨
      s.transferForm.amount = "" then
    .failure .MissingField
  else if s.transferForm.fromAccount = s.transferForm.toAccount then
    .failure .SameAccount
  else
    match parseFloat s.transferForm.amount with
    | none => .failure .InvalidAmount
    | some amount =>
      if amount ≤ 0 then .failure .InvalidAmount
      else
        match s.accounts.find? (fun acc => acc.id == s.transferForm.fromAccount),
              s.accounts.find? (fun acc => acc.id == s.transferForm.toAccount) with
        | some fromAcc, some toAcc =>
          if fromAcc.balance < amount then .failure .InsufficientBalance
          else
            match convPair amount fromAcc toAcc with
            | none => .failure .UnsupportedCurrencyPair
            | some p =>
              .success
                { accounts := s.accounts.map (updateBalances s.transferForm amount p.1)
                  transactions :=
                    mkTransaction now s.transferForm fromAcc toAcc amount p.1 p.2 ::
                      s.transactions
                  transferForm := emptyForm }
        | _, _ => .failure .UnknownAccount

/-- One user interaction: enter the form `f`, click Transfer with the clock
at `now`.  On failure the component leaves accounts and transactions alone
and the form keeps the entered values. -/
def step (now : ℤ) (f : TransferForm) (s : LedgerState) : LedgerState :=
  match handleTransfer now { s with transferForm := f } with
  | .success s' => s'
  | .failure _ => { s with transferForm := f }

/-- Run a sequence of interactions, oldest first. -/
def run : List (ℤ × TransferForm) → LedgerState → LedgerState
  | [], s => s
  | (n, f) :: rest, s => run rest (step n f s)

/-! ## Filtering -/

/-- Does `needle` occur at the start of `hay`? -/
def hasPrefixChars : List Char → List Char → Bool
  | [], _ => true
  | _ :: _, [] => false
  | a :: as, b :: bs => a == b && hasPrefixChars as bs

/-- Does `needle` occur anywhere in `hay`?  (JS `String.prototype.includes`.) -/
def hasSubChars (needle : List Char) : List Char → Bool
  | [] => hasPrefixChars needle []
  | c :: rest => hasPrefixChars needle (c :: rest) || hasSubChars needle rest

def strIncludes (hay needle : String) : Bool :=
  hasSubChars needle.toList hay.toList

/-- The predicate body of `transactions.filter` in `filteredTransactions`:
the running `matches` accumulator with one guarded clause per filter
field.  `tx.fromCurrency === filters.currency` compares the currency (a
string literal type in TS) with the filter string; the date guards compare
epoch values as described in the header. -/
def txMatches (filters : Filters) (tx : Transaction) : Bool :=
  let m1 := true
  let m2 :=
    if filters.account ≠ "" then
      m1 && (strIncludes tx.fromAccount filters.account ||
             strIncludes tx.toAccount filters.account)
    else m1
  let m3 :=
    if filters.currency ≠ "" then
      m2 && (currencyStr tx.fromCurrency == filters.currency ||
             currencyStr tx.toCurrency == filters.currency)
    else m2
  let m4 :=
    match filters.dateFrom with
    | some d => m3 && decide (d ≤ tx.timestamp)
    | none => m3
  let m5 :=
    match filters.dateTo with
    | some d => m4 && decide (tx.timestamp ≤ d + 86399000)
    | none => m4
  m5

/-- `filteredTransactions` of the source. -/
def filteredTransactions (filters : Filters) (txs : List Transaction) :
    List Transaction :=
  txs.filter (txMatches filters)

/-! ## Currency totals -/

/-- `getTotalByCurrency` of the source: fold the accounts into a partial
map from currency to total; `(totals[acc.currency] || 0)` reads the
accumulated value, with JS falsiness sending both `undefined` and `0`
to `0`. -/
def totStep (totals : Currency → Option ℚ) (acc : Account) :
    Currency → Option ℚ :=
  fun k =>
    if k = acc.currency then some ((totals acc.currency).getD 0 + acc.balance)
    else totals k

def getTotalByCurrency (accounts : List Account) : Currency → Option ℚ :=
  accounts.foldl totStep (fun _ => none)


/-! ## Spec-side definitions

The following definitions follow the spec's words rather than the
source; the refinement theorems below compare them with the embedded
code. -/

/-- The validation sequence as the spec words it (section 4.2): the first
failing check in order, `none` when all six pass.  Spec-side definition for
the refinement statements; compare `handleTransfer`. -/
def specFirstError (s : LedgerState) : Option TransferError :=
  if s.transferForm.fromAccount = "" ∨ s.transferForm.toAccount = "" ∨
      s.transferForm.amount = "" then some .MissingField
  else if s.transferForm.fromAccount = s.transferForm.toAccount then
    some .SameAccount
  else
    match parseFloat s.transferForm.amount with
    | none => some .InvalidAmount
    | some a =>
      if a ≤ 0 then some .InvalidAmount
      else
        match s.accounts.find? (fun acc => acc.id == s.transferForm.fromAccount),
              s.accounts.find? (fun acc => acc.id == s.transferForm.toAccount) with
        | some fromAcc, some toAcc =>
          if fromAcc.balance < a then some .InsufficientBalance
          else if fromAcc.currency = toAcc.currency then none
          else if (FX_RATES (rateKey fromAcc.currency toAcc.currency)).isSome then none
          else some .UnsupportedCurrencyPair
        | _, _ => some .UnknownAccount

/-- The spec's matching rules (section 4.4) as a predicate: a transaction
matches iff every populated filter field matches it.  Spec-side definition
for the refinement statement; compare `txMatches`. -/
def specMatches (filters : Filters) (tx : Transaction) : Prop :=
  (filters.account ≠ "" →
    (strIncludes tx.fromAccount filters.account = true ∨
     strIncludes tx.toAccount filters.account = true)) ∧
  (filters.currency ≠ "" →
    (currencyStr tx.fromCurrency = filters.currency ∨
     currencyStr tx.toCurrency = filters.currency)) ∧
  (∀ d, filters.dateFrom = some d → d ≤ tx.timestamp) ∧
  (∀ d, filters.dateTo = some d → tx.timestamp ≤ d + 86399000)

/-- The balance mass an account list carries in currency `k` (proof-side
abbreviation for reasoning about `getTotalByCurrency`). -/
def sumBal (l : List Account) (k : Currency) : ℚ :=
  (l.map (fun a => if a.currency = k then a.balance else 0)).sum

/-! ## Helper lemmas about the embedded operations -/

lemma FX_RATES_pos {k : String} {r : ℚ} (h : FX_RATES k = some r) :
    0 < r ∧ r ≠ 1 := by
  unfold FX_RATES at h
  split_ifs at h <;>
    first
      | exact Option.noConfusion h
      | (injection h with h; subst h; exact ⟨by norm_num, by norm_num⟩)

lemma updateBalances_id (form : TransferForm) (a ca : ℚ) (acc : Account) :
    (updateBalances form a ca acc).id = acc.id := by
  unfold updateBalances; split_ifs <;> rfl

lemma updateBalances_currency (form : TransferForm) (a ca : ℚ) (acc : Account) :
    (updateBalances form a ca acc).currency = acc.currency := by
  unfold updateBalances; split_ifs <;> rfl

lemma find?_map_updateBalances (form : TransferForm) (a ca : ℚ)
    (l : List Account) (idv : String) :
    (l.map (updateBalances form a ca)).find? (fun acc => acc.id == idv) =
      (l.find? (fun acc => acc.id == idv)).map (updateBalances form a ca) := by
  rw [List.find?_map]
  have hp : ((fun acc : Account => acc.id == idv) ∘ updateBalances form a ca) =
      (fun acc : Account => acc.id == idv) := by
    funext acc
    simp [Function.comp, updateBalances_id]
  rw [hp]

lemma convPair_eq_of_rate {a r : ℚ} (ha : 0 < a) {fromAcc toAcc : Account}
    (h6 : (if fromAcc.currency = toAcc.currency then some 1
           else FX_RATES (rateKey fromAcc.currency toAcc.currency)) = some r) :
    convPair a fromAcc toAcc = some (a * r, r) := by
  unfold convPair
  by_cases hc : fromAcc.currency = toAcc.currency
  · rw [if_pos hc] at h6
    rw [if_pos hc]
    injection h6 with h6
    subst h6
    rw [mul_one]
  · rw [if_neg hc] at h6
    rw [if_neg hc]
    unfold calculateFXConversion
    rw [if_neg hc]
    have hpos := FX_RATES_pos h6
    simp only [h6, if_neg (ne_of_gt hpos.1),
      if_neg (mul_ne_zero (ne_of_gt ha) (ne_of_gt hpos.1)),
      mul_div_cancel_left₀ r (ne_of_gt ha)]

lemma handleTransfer_eq_success {now : ℤ} {s : LedgerState} {a r : ℚ}
    {fromAcc toAcc : Account}
    (h1a : s.transferForm.fromAccount ≠ "") (h1b : s.transferForm.toAccount ≠ "")
    (h1c : s.transferForm.amount ≠ "")
    (h2 : s.transferForm.fromAccount ≠ s.transferForm.toAccount)
    (h3 : parseFloat s.transferForm.amount = some a) (ha : 0 < a)
    (h4a : s.accounts.find? (fun acc => acc.id == s.transferForm.fromAccount) = some fromAcc)
    (h4b : s.accounts.find? (fun acc => acc.id == s.transferForm.toAccount) = some toAcc)
    (h5 : a ≤ fromAcc.balance)
    (h6 : (if fromAcc.currency = toAcc.currency then some 1
           else FX_RATES (rateKey fromAcc.currency toAcc.currency)) = some r) :
    handleTransfer now s = .success
      { accounts := s.accounts.map (updateBalances s.transferForm a (a * r))
        transactions :=
          mkTransaction now s.transferForm fromAcc toAcc a (a * r) r :: s.transactions
        transferForm := emptyForm } := by
  have hconv := convPair_eq_of_rate ha h6
  unfold handleTransfer
  simp only [h3, h4a, h4b, hconv]
  rw [if_neg (by simp [h1a, h1b, h1c]), if_neg h2,
    if_neg (not_le.mpr ha), if_neg (not_lt.mpr h5)]

lemma handleTransfer_success_inv {now : ℤ} {s s' : LedgerState}
    (h : handleTransfer now s = .success s') :
    ∃ (a : ℚ) (p : ℚ × ℚ) (fromAcc toAcc : Account),
      parseFloat s.transferForm.amount = some a ∧ 0 < a ∧
      s.transferForm.fromAccount ≠ s.transferForm.toAccount ∧
      s.accounts.find? (fun acc => acc.id == s.transferForm.fromAccount) = some fromAcc ∧
      s.accounts.find? (fun acc => acc.id == s.transferForm.toAccount) = some toAcc ∧
      a ≤ fromAcc.balance ∧
      convPair a fromAcc toAcc = some p ∧
      s' = { accounts := s.accounts.map (updateBalances s.transferForm a p.1)
             transactions :=
               mkTransaction now s.transferForm fromAcc toAcc a p.1 p.2 :: s.transactions
             transferForm := emptyForm } := by
  unfold handleTransfer at h
  split at h
  · exact TransferResult.noConfusion h
  split at h
  · exact TransferResult.noConfusion h
  split at h
  · exact TransferResult.noConfusion h
  next a hparse =>
    split at h
    · exact TransferResult.noConfusion h
    next hnotle =>
      split at h
      next fromAcc toAcc hfa hfb =>
        split at h
        · exact TransferResult.noConfusion h
        next hbal =>
          split at h
          · exact TransferResult.noConfusion h
          next p hconv =>
            injection h with h
            subst h
            exact ⟨a, p, fromAcc, toAcc, hparse, lt_of_not_le hnotle, by assumption,
              hfa, hfb, le_of_not_lt hbal, hconv, rfl⟩
      next h1 h2 => exact TransferResult.noConfusion h

/-- C1: a transfer form and ledger state passing all six validation checks
makes `handleTransfer` succeed, debiting the source account by exactly the
parsed amount, crediting the destination account by exactly amount times
the effective rate (rate = 1 when the currencies match), prepending exactly
one new Transaction (status Scheduled iff the scheduled-date string is
non-empty, else Completed) to the front of the log, and resetting the
transfer form to its empty state. -/
theorem handleTransfer_success_effects (now : ℤ) (s : LedgerState) (a r : ℚ)
    (fromAcc toAcc : Account)
    (h1a : s.transferForm.fromAccount ≠ "") (h1b : s.transferForm.toAccount ≠ "")
    (h1c : s.transferForm.amount ≠ "")
    (h2 : s.transferForm.fromAccount ≠ s.transferForm.toAccount)
    (h3 : parseFloat s.transferForm.amount = some a) (ha : 0 < a)
    (h4a : s.accounts.find? (fun acc => acc.id == s.transferForm.fromAccount) = some fromAcc)
    (h4b : s.accounts.find? (fun acc => acc.id == s.transferForm.toAccount) = some toAcc)
    (h5 : a ≤ fromAcc.balance)
    (h6 : (if fromAcc.currency = toAcc.currency then some 1
           else FX_RATES (rateKey fromAcc.currency toAcc.currency)) = some r) :
    ∃ s', handleTransfer now s = .success s' ∧
      s'.accounts.find? (fun acc => acc.id == s.transferForm.fromAccount) =
        some { fromAcc with balance := fromAcc.balance - a } ∧
      s'.accounts.find? (fun acc => acc.id == s.transferForm.toAccount) =
        some { toAcc with balance := toAcc.balance + a * r } ∧
      s'.transactions =
        mkTransaction now s.transferForm fromAcc toAcc a (a * r) r :: s.transactions ∧
      (mkTransaction now s.transferForm fromAcc toAcc a (a * r) r).status =
        (if s.transferForm.scheduledDate = "" then .Completed else .Scheduled) ∧
      s'.transferForm = emptyForm := by
  refine ⟨_, handleTransfer_eq_success h1a h1b h1c h2 h3 ha h4a h4b h5 h6,
    ?_, ?_, rfl, rfl, rfl⟩
  · show (s.accounts.map (updateBalances s.transferForm a (a * r))).find? _ = _
    rw [find?_map_updateBalances, h4a]
    have hid : fromAcc.id = s.transferForm.fromAccount := by
      simpa using List.find?_some h4a
    simp only [Option.map_some']
    unfold updateBalances
    rw [if_pos hid]
  · show (s.accounts.map (updateBalances s.transferForm a (a * r))).find? _ = _
    rw [find?_map_updateBalances, h4b]
    have hid : toAcc.id = s.transferForm.toAccount := by
      simpa using List.find?_some h4b
    simp only [Option.map_some']
    unfold updateBalances
    rw [if_neg (by rw [hid]; exact fun hh => h2 hh.symm), if_pos hid]

/-- C1 witness: the theorem applied to the seed ledger with a concrete
cross-currency transfer. -/
theorem handleTransfer_success_effects_witness :
    ∃ s', handleTransfer 0
        { seedState with
          transferForm := ⟨"mpesa_kes_1", "bank_usd_1", "100000", "", ""⟩ } = .success s' ∧
      s'.accounts.find? (fun acc => acc.id == "mpesa_kes_1") =
        some ⟨"mpesa_kes_1", "Mpesa_KES_1", .KES, 2400000⟩ ∧
      s'.accounts.find? (fun acc => acc.id == "bank_usd_1") =
        some ⟨"bank_usd_1", "Bank_USD_1", .USD, 45670⟩ ∧
      s'.transactions =
        mkTransaction 0 ⟨"mpesa_kes_1", "bank_usd_1", "100000", "", ""⟩
          ⟨"mpesa_kes_1", "Mpesa_KES_1", .KES, 2500000⟩
          ⟨"bank_usd_1", "Bank_USD_1", .USD, 45000⟩ 100000 670 0.0067 :: [] ∧
      (mkTransaction 0 ⟨"mpesa_kes_1", "bank_usd_1", "100000", "", ""⟩
          ⟨"mpesa_kes_1", "Mpesa_KES_1", .KES, 2500000⟩
          ⟨"bank_usd_1", "Bank_USD_1", .USD, 45000⟩ 100000 670 0.0067).status =
        (if ("" : String) = "" then .Completed else .Scheduled) ∧
      s'.transferForm = emptyForm :=
  handleTransfer_success_effects 0
    { seedState with transferForm := ⟨"mpesa_kes_1", "bank_usd_1", "100000", "", ""⟩ }
    100000 0.0067
    ⟨"mpesa_kes_1", "Mpesa_KES_1", .KES, 2500000⟩
    ⟨"bank_usd_1", "Bank_USD_1", .USD, 45000⟩
    (by decide) (by decide) (by decide) (by decide) (by decide) (by decide)
    (by decide) (by decide) (by decide) (by decide)

lemma convPair_eq_none_of_no_rate {a : ℚ} {fromAcc toAcc : Account}
    (hc : fromAcc.currency ≠ toAcc.currency)
    (hr : FX_RATES (rateKey fromAcc.currency toAcc.currency) = none) :
    convPair a fromAcc toAcc = none := by
  unfold convPair calculateFXConversion
  rw [if_neg hc, if_neg hc]
  simp only [hr]

lemma handleTransfer_matches_spec (now : ℤ) (s : LedgerState) :
    match specFirstError s with
    | some e => handleTransfer now s = .failure e
    | none => ∃ s', handleTransfer now s = .success s' := by
  by_cases hmf : s.transferForm.fromAccount = "" ∨ s.transferForm.toAccount = "" ∨
      s.transferForm.amount = ""
  · simp only [specFirstError, handleTransfer, if_pos hmf]
  · push_neg at hmf
    obtain ⟨h1a, h1b, h1c⟩ := hmf
    have hmf' : ¬(s.transferForm.fromAccount = "" ∨ s.transferForm.toAccount = "" ∨
        s.transferForm.amount = "") := by simp [h1a, h1b, h1c]
    by_cases hsame : s.transferForm.fromAccount = s.transferForm.toAccount
    · simp only [specFirstError, handleTransfer, if_neg hmf', if_pos hsame]
    · cases hp : parseFloat s.transferForm.amount with
      | none =>
        simp only [specFirstError, handleTransfer, if_neg hmf', if_neg hsame, hp]
      | some a =>
        by_cases hle : a ≤ 0
        · simp only [specFirstError, handleTransfer, if_neg hmf', if_neg hsame, hp,
            if_pos hle]
        · cases hfa : s.accounts.find? (fun acc => acc.id == s.transferForm.fromAccount) with
          | none =>
            simp only [specFirstError, handleTransfer, if_neg hmf', if_neg hsame, hp,
              if_neg hle, hfa]
          | some fromAcc =>
            cases hfb : s.accounts.find? (fun acc => acc.id == s.transferForm.toAccount) with
            | none =>
              simp only [specFirstError, handleTransfer, if_neg hmf', if_neg hsame, hp,
                if_neg hle, hfa, hfb]
            | some toAcc =>
              by_cases hbal : fromAcc.balance < a
              · simp only [specFirstError, handleTransfer, if_neg hmf', if_neg hsame, hp,
                  if_neg hle, hfa, hfb, if_pos hbal]
              · by_cases hcur : fromAcc.currency = toAcc.currency
                · simp only [specFirstError, if_neg hmf', if_neg hsame, hp, if_neg hle,
                    hfa, hfb, if_neg hbal, if_pos hcur]
                  exact ⟨_, handleTransfer_eq_success h1a h1b h1c hsame hp
                    (lt_of_not_le hle) hfa hfb (le_of_not_lt hbal)
                    (by rw [if_pos hcur])⟩
                · cases hrate : FX_RATES (rateKey fromAcc.currency toAcc.currency) with
                  | none =>
                    simp only [specFirstError, handleTransfer, if_neg hmf', if_neg hsame,
                      hp, if_neg hle, hfa, hfb, if_neg hbal, if_neg hcur, hrate,
                      Option.isSome_none, Bool.false_eq_true, if_false,
                      convPair_eq_none_of_no_rate hcur hrate]
                  | some r =>
                    simp only [specFirstError, if_neg hmf', if_neg hsame, hp, if_neg hle,
                      hfa, hfb, if_neg hbal, if_neg hcur, hrate, Option.isSome_some,
                      if_true]
                    exact ⟨_, handleTransfer_eq_success h1a h1b h1c hsame hp
                      (lt_of_not_le hle) hfa hfb (le_of_not_lt hbal)
                      (by rw [if_neg hcur, hrate])⟩

lemma handleTransfer_failure_iff (now : ℤ) (s : LedgerState) (e : TransferError) :
    handleTransfer now s = .failure e ↔ specFirstError s = some e := by
  have hm := handleTransfer_matches_spec now s
  cases hspec : specFirstError s with
  | some e' =>
    rw [hspec] at hm
    constructor
    · intro hf
      rw [hm] at hf
      injection hf with hf
      rw [hf]
    · intro hs
      injection hs with hs
      rw [← hs]
      exact hm
  | none =>
    rw [hspec] at hm
    obtain ⟨s', hs'⟩ := hm
    constructor
    · intro hf
      rw [hs'] at hf
      exact TransferResult.noConfusion hf
    · intro hs
      exact Option.noConfusion hs

lemma handleTransfer_success_iff (now : ℤ) (s : LedgerState) :
    (∃ s', handleTransfer now s = .success s') ↔ specFirstError s = none := by
  have hm := handleTransfer_matches_spec now s
  cases hspec : specFirstError s with
  | some e' =>
    rw [hspec] at hm
    constructor
    · intro hex
      obtain ⟨s', hs'⟩ := hex
      rw [hm] at hs'
      exact TransferResult.noConfusion hs'
    · intro hn
      exact Option.noConfusion hn
  | none =>
    rw [hspec] at hm
    exact ⟨fun _ => rfl, fun _ => hm⟩

/-- C2: a transfer attempt fails iff one of the six validation conditions
fails, with the error of the first failing check in the specified order
(`specFirstError` is the spec's ordered validation sequence), and on every
failure the accounts, the transaction log and the entered form values are
all left unchanged. -/
theorem transfer_error_complete (now : ℤ) (s : LedgerState) :
    (∀ e, handleTransfer now s = .failure e ↔ specFirstError s = some e) ∧
    ((∃ s', handleTransfer now s = .success s') ↔ specFirstError s = none) ∧
    (∀ e, handleTransfer now s = .failure e → step now s.transferForm s = s) := by
  refine ⟨handleTransfer_failure_iff now s, handleTransfer_success_iff now s,
    fun e hf => ?_⟩
  show (match handleTransfer now s with
        | .success s' => s'
        | .failure _ => s) = s
  rw [hf]

lemma specFirstError_invalid_iff (s : LedgerState) :
    specFirstError s = some .InvalidAmount ↔
      (s.transferForm.fromAccount ≠ "" ∧ s.transferForm.toAccount ≠ "" ∧
        s.transferForm.amount ≠ "") ∧
      s.transferForm.fromAccount ≠ s.transferForm.toAccount ∧
      (parseFloat s.transferForm.amount = none ∨
        ∃ a, parseFloat s.transferForm.amount = some a ∧ a ≤ 0) := by
  unfold specFirstError
  by_cases hmf : s.transferForm.fromAccount = "" ∨ s.transferForm.toAccount = "" ∨
      s.transferForm.amount = ""
  · rw [if_pos hmf]
    constructor
    · intro h
      injection h with h
      exact TransferError.noConfusion h
    · rintro ⟨⟨h1a, h1b, h1c⟩, -, -⟩
      exact absurd hmf (by simp [h1a, h1b, h1c])
  · push_neg at hmf
    obtain ⟨h1a, h1b, h1c⟩ := hmf
    rw [if_neg (by simp [h1a, h1b, h1c])]
    by_cases hsame : s.transferForm.fromAccount = s.transferForm.toAccount
    · rw [if_pos hsame]
      constructor
      · intro h
        injection h with h
        exact TransferError.noConfusion h
      · rintro ⟨-, hne, -⟩
        exact absurd hsame hne
    · rw [if_neg hsame]
      cases hp : parseFloat s.transferForm.amount with
      | none =>
        simp only [hp]
        simp [h1a, h1b, h1c, hsame]
      | some a =>
        simp only [hp]
        by_cases hle : a ≤ 0
        · rw [if_pos hle]
          simp only [Option.some.injEq, true_iff]
          exact ⟨⟨h1a, h1b, h1c⟩, hsame, Or.inr ⟨a, rfl, hle⟩⟩
        · rw [if_neg hle]
          constructor
          · intro h
            exfalso
            revert h
            split
            · split_ifs <;> simp
            · simp
          · rintro ⟨-, -, hbad⟩
            exfalso
            rcases hbad with h | ⟨a', ha', hle'⟩
            · exact Option.noConfusion h
            · injection ha' with ha'
              subst ha'
              exact hle hle'

/-- C9: the InvalidAmount rejection occurs exactly when the earlier checks
pass and `parseFloat` of the amount string yields NaN (`none`) or a value
at most 0; in particular "100abc" parses to the strictly positive prefix
100, so such a transfer proceeds, debiting the source by 100. -/
theorem invalidAmount_parseFloat (now : ℤ) (s : LedgerState) :
    (handleTransfer now s = .failure .InvalidAmount ↔
      (s.transferForm.fromAccount ≠ "" ∧ s.transferForm.toAccount ≠ "" ∧
        s.transferForm.amount ≠ "") ∧
      s.transferForm.fromAccount ≠ s.transferForm.toAccount ∧
      (parseFloat s.transferForm.amount = none ∨
        ∃ a, parseFloat s.transferForm.amount = some a ∧ a ≤ 0)) ∧
    parseFloat "100abc" = some 100 ∧
    (∃ s', handleTransfer now
        { seedState with
          transferForm := ⟨"mpesa_kes_1", "mpesa_kes_2", "100abc", "", ""⟩ } =
          .success s' ∧
      s'.accounts.find? (fun acc => acc.id == "mpesa_kes_1") =
        some ⟨"mpesa_kes_1", "Mpesa_KES_1", .KES, 2500000 - 100⟩) := by
  refine ⟨?_, by decide, ?_⟩
  · rw [handleTransfer_failure_iff]
    exact specFirstError_invalid_iff s
  · refine ⟨_, @handleTransfer_eq_success now
      { seedState with
        transferForm := ⟨"mpesa_kes_1", "mpesa_kes_2", "100abc", "", ""⟩ }
      100 1 ⟨"mpesa_kes_1", "Mpesa_KES_1", .KES, 2500000⟩
      ⟨"mpesa_kes_2", "Mpesa_KES_2", .KES, 1800000⟩
      (by decide) (by decide) (by decide) (by decide) (by decide) (by decide)
      (by decide) (by decide) (by decide) (by decide), ?_⟩
    have hfind : (List.map
        (updateBalances ⟨"mpesa_kes_1", "mpesa_kes_2", "100abc", "", ""⟩ 100 (100 * 1))
        initialAccounts).find? (fun acc => acc.id == "mpesa_kes_1") =
        some ⟨"mpesa_kes_1", "Mpesa_KES_1", .KES, 2500000 - 100⟩ := by decide
    exact hfind

lemma convPair_fst_pos {a : ℚ} {fromAcc toAcc : Account} {p : ℚ × ℚ}
    (ha : 0 < a) (h : convPair a fromAcc toAcc = some p) : 0 < p.1 := by
  by_cases hc : fromAcc.currency = toAcc.currency
  · have heq := convPair_eq_of_rate ha (r := 1) (by rw [if_pos hc])
    rw [heq] at h
    injection h with h
    subst h
    simpa using ha
  · cases hr : FX_RATES (rateKey fromAcc.currency toAcc.currency) with
    | none =>
      rw [convPair_eq_none_of_no_rate hc hr] at h
      exact Option.noConfusion h
    | some r =>
      have heq := convPair_eq_of_rate ha (by rw [if_neg hc, hr])
      rw [heq] at h
      injection h with h
      subst h
      exact mul_pos ha (FX_RATES_pos hr).1

lemma convPair_rel {a : ℚ} {fromAcc toAcc : Account} {p : ℚ × ℚ}
    (ha : 0 < a) (h : convPair a fromAcc toAcc = some p) :
    p.1 = a * p.2 ∧ (p.2 = 1 ↔ fromAcc.currency = toAcc.currency) := by
  by_cases hc : fromAcc.currency = toAcc.currency
  · have heq := convPair_eq_of_rate ha (r := 1) (by rw [if_pos hc])
    rw [heq] at h
    injection h with h
    subst h
    exact ⟨rfl, iff_of_true rfl hc⟩
  · cases hr : FX_RATES (rateKey fromAcc.currency toAcc.currency) with
    | none =>
      rw [convPair_eq_none_of_no_rate hc hr] at h
      exact Option.noConfusion h
    | some r =>
      have heq := convPair_eq_of_rate ha (by rw [if_neg hc, hr])
      rw [heq] at h
      injection h with h
      subst h
      exact ⟨rfl, iff_of_false (FX_RATES_pos hr).2 hc⟩

lemma step_preserves_nonneg {s : LedgerState} (now : ℤ) (f : TransferForm)
    (hnodup : (s.accounts.map (fun a => a.id)).Nodup)
    (hpos : ∀ acc ∈ s.accounts, 0 ≤ acc.balance) :
    ((step now f s).accounts.map (fun a => a.id)).Nodup ∧
      ∀ acc ∈ (step now f s).accounts, 0 ≤ acc.balance := by
  unfold step
  cases hh : handleTransfer now { s with transferForm := f } with
  | failure e => exact ⟨hnodup, hpos⟩
  | success s' =>
    obtain ⟨a, p, fromAcc, toAcc, hp, ha, hne, hfa, hfb, hbal, hconv, hs'⟩ :=
      handleTransfer_success_inv hh
    subst hs'
    simp only at hfa hfb ⊢
    constructor
    · rw [List.map_map]
      have hcomp : ((fun a : Account => a.id) ∘ updateBalances f a p.1) =
          fun a : Account => a.id := by
        funext acc
        exact updateBalances_id f a p.1 acc
      rw [hcomp]
      exact hnodup
    · intro acc hacc
      rw [List.mem_map] at hacc
      obtain ⟨y, hy, rfl⟩ := hacc
      unfold updateBalances
      split_ifs with hid1 hid2
      · have hmem := List.mem_of_find?_eq_some hfa
        have hfromid : fromAcc.id = f.fromAccount := by
          simpa using List.find?_some hfa
        have hyeq : y = fromAcc :=
          List.inj_on_of_nodup_map hnodup hy hmem (by rw [hid1, hfromid])
        subst hyeq
        simp only
        linarith [hbal]
      · have h1 := hpos y hy
        have h2 := convPair_fst_pos ha hconv
        simp only
        linarith
      · exact hpos y hy

lemma run_preserves_nonneg (inputs : List (ℤ × TransferForm)) (s : LedgerState)
    (hnodup : (s.accounts.map (fun a => a.id)).Nodup)
    (hpos : ∀ acc ∈ s.accounts, 0 ≤ acc.balance) :
    ((run inputs s).accounts.map (fun a => a.id)).Nodup ∧
      ∀ acc ∈ (run inputs s).accounts, 0 ≤ acc.balance := by
  induction inputs generalizing s with
  | nil => exact ⟨hnodup, hpos⟩
  | cons nf rest ih =>
    obtain ⟨n, f⟩ := nf
    have h := step_preserves_nonneg n f hnodup hpos
    exact ih (step n f s) h.1 h.2

/-- C3: starting from the fixed seed accounts, every sequence of transfer
submissions keeps every account balance non-negative. -/
theorem balances_never_negative (inputs : List (ℤ × TransferForm)) :
    ∀ acc ∈ (run inputs seedState).accounts, 0 ≤ acc.balance :=
  (run_preserves_nonneg inputs seedState (by decide) (by decide)).2

/-- C3 witness: after one concrete transfer from the seed state the debited
account is still non-negative. -/
theorem balances_never_negative_witness :
    (⟨"mpesa_kes_1", "Mpesa_KES_1", .KES, 2499900⟩ : Account) ∈
      (run [(0, ⟨"mpesa_kes_1", "mpesa_kes_2", "100", "", ""⟩)] seedState).accounts ∧
    (0 : ℚ) ≤ (⟨"mpesa_kes_1", "Mpesa_KES_1", .KES, 2499900⟩ : Account).balance :=
  ⟨by decide,
    balances_never_negative [(0, ⟨"mpesa_kes_1", "mpesa_kes_2", "100", "", ""⟩)]
      ⟨"mpesa_kes_1", "Mpesa_KES_1", .KES, 2499900⟩ (by decide)⟩

lemma step_preserves_txinv {s : LedgerState} (now : ℤ) (f : TransferForm)
    (hinv : ∀ tx ∈ s.transactions, tx.convertedAmount = tx.amount * tx.fxRate ∧
      (tx.fxRate = 1 ↔ tx.fromCurrency = tx.toCurrency)) :
    ∀ tx ∈ (step now f s).transactions,
      tx.convertedAmount = tx.amount * tx.fxRate ∧
      (tx.fxRate = 1 ↔ tx.fromCurrency = tx.toCurrency) := by
  unfold step
  cases hh : handleTransfer now { s with transferForm := f } with
  | failure e => exact hinv
  | success s' =>
    obtain ⟨a, p, fromAcc, toAcc, hp, ha, hne, hfa, hfb, hbal, hconv, hs'⟩ :=
      handleTransfer_success_inv hh
    subst hs'
    intro tx htx
    simp only at htx
    rcases List.mem_cons.mp htx with rfl | htx
    · have hrel := convPair_rel ha hconv
      unfold mkTransaction
      exact ⟨hrel.1, hrel.2⟩
    · exact hinv tx htx

lemma run_preserves_txinv (inputs : List (ℤ × TransferForm)) (s : LedgerState)
    (hinv : ∀ tx ∈ s.transactions, tx.convertedAmount = tx.amount * tx.fxRate ∧
      (tx.fxRate = 1 ↔ tx.fromCurrency = tx.toCurrency)) :
    ∀ tx ∈ (run inputs s).transactions,
      tx.convertedAmount = tx.amount * tx.fxRate ∧
      (tx.fxRate = 1 ↔ tx.fromCurrency = tx.toCurrency) := by
  induction inputs generalizing s with
  | nil => exact hinv
  | cons nf rest ih =>
    obtain ⟨n, f⟩ := nf
    exact ih (step n f s) (step_preserves_txinv n f hinv)

/-- C4: every transaction ever appended to the log satisfies
convertedAmount = amount * fxRate, and fxRate = 1 iff the source and
destination currencies are identical. -/
theorem tx_fx_invariant (inputs : List (ℤ × TransferForm)) :
    ∀ tx ∈ (run inputs seedState).transactions,
      tx.convertedAmount = tx.amount * tx.fxRate ∧
      (tx.fxRate = 1 ↔ tx.fromCurrency = tx.toCurrency) :=
  run_preserves_txinv inputs seedState (by simp [seedState])

/-- C4 witness: the invariant at the concrete transaction created by one
cross-currency transfer from the seed state. -/
theorem tx_fx_invariant_witness :
    (mkTransaction 0 ⟨"mpesa_kes_1", "bank_usd_1", "100000", "", ""⟩
        ⟨"mpesa_kes_1", "Mpesa_KES_1", .KES, 2500000⟩
        ⟨"bank_usd_1", "Bank_USD_1", .USD, 45000⟩ 100000 670 0.0067) ∈
      (run [(0, ⟨"mpesa_kes_1", "bank_usd_1", "100000", "", ""⟩)] seedState).transactions ∧
    ((mkTransaction 0 ⟨"mpesa_kes_1", "bank_usd_1", "100000", "", ""⟩
        ⟨"mpesa_kes_1", "Mpesa_KES_1", .KES, 2500000⟩
        ⟨"bank_usd_1", "Bank_USD_1", .USD, 45000⟩ 100000 670 0.0067).convertedAmount =
      (mkTransaction 0 ⟨"mpesa_kes_1", "bank_usd_1", "100000", "", ""⟩
        ⟨"mpesa_kes_1", "Mpesa_KES_1", .KES, 2500000⟩
        ⟨"bank_usd_1", "Bank_USD_1", .USD, 45000⟩ 100000 670 0.0067).amount *
      (mkTransaction 0 ⟨"mpesa_kes_1", "bank_usd_1", "100000", "", ""⟩
        ⟨"mpesa_kes_1", "Mpesa_KES_1", .KES, 2500000⟩
        ⟨"bank_usd_1", "Bank_USD_1", .USD, 45000⟩ 100000 670 0.0067).fxRate) :=
  ⟨by decide,
    (tx_fx_invariant [(0, ⟨"mpesa_kes_1", "bank_usd_1", "100000", "", ""⟩)]
      (mkTransaction 0 ⟨"mpesa_kes_1", "bank_usd_1", "100000", "", ""⟩
        ⟨"mpesa_kes_1", "Mpesa_KES_1", .KES, 2500000⟩
        ⟨"bank_usd_1", "Bank_USD_1", .USD, 45000⟩ 100000 670 0.0067) (by decide)).1⟩

lemma step_transactions (now : ℤ) (f : TransferForm) (s : LedgerState) :
    (step now f s).transactions = s.transactions ∨
    ∃ tx : Transaction, tx.id = now ∧
      (step now f s).transactions = tx :: s.transactions := by
  unfold step
  cases hh : handleTransfer now { s with transferForm := f } with
  | failure e => exact Or.inl rfl
  | success s' =>
    obtain ⟨a, p, fromAcc, toAcc, -, -, -, -, -, -, -, hs'⟩ :=
      handleTransfer_success_inv hh
    subst hs'
    exact Or.inr ⟨_, rfl, rfl⟩

lemma run_ids_decreasing (inputs : List (ℤ × TransferForm)) (s : LedgerState)
    (hmono : (inputs.map Prod.fst).Pairwise (· < ·))
    (hfut : ∀ tx ∈ s.transactions, ∀ nf ∈ inputs, tx.id < nf.1)
    (hlog : (s.transactions.map (fun t => t.id)).Pairwise (· > ·)) :
    ((run inputs s).transactions.map (fun t => t.id)).Pairwise (· > ·) := by
  induction inputs generalizing s with
  | nil => exact hlog
  | cons nf rest ih =>
    obtain ⟨n, f⟩ := nf
    simp only [List.map_cons, List.pairwise_cons] at hmono
    show ((run rest (step n f s)).transactions.map (fun t => t.id)).Pairwise (· > ·)
    rcases step_transactions n f s with heq | ⟨tx0, hid, heq⟩
    · apply ih _ hmono.2
      · intro tx htx nf' hnf'
        rw [heq] at htx
        exact hfut tx htx nf' (List.mem_cons_of_mem _ hnf')
      · rw [heq]
        exact hlog
    · apply ih _ hmono.2
      · intro tx htx nf' hnf'
        rw [heq] at htx
        rcases List.mem_cons.mp htx with rfl | htx'
        · rw [hid]
          exact hmono.1 nf'.1 (List.mem_map_of_mem Prod.fst hnf')
        · exact hfut tx htx' nf' (List.mem_cons_of_mem _ hnf')
      · rw [heq]
        simp only [List.map_cons, List.pairwise_cons]
        constructor
        · intro b hb
          rw [List.mem_map] at hb
          obtain ⟨ty, hty, rfl⟩ := hb
          rw [hid]
          exact hfut ty hty (n, f) (List.mem_cons_self _ _)
        · exact hlog

/-- C8 amended: provided the clock strictly increases between submissions
(`Date.now()` values pairwise increasing), transaction ids in the log are
pairwise distinct and the newest-first log has strictly decreasing ids, so
a transaction created later never has a smaller id. -/
theorem tx_ids_distinct_monotone (inputs : List (ℤ × TransferForm))
    (hmono : (inputs.map Prod.fst).Pairwise (· < ·)) :
    ((run inputs seedState).transactions.map (fun t => t.id)).Pairwise (· > ·) ∧
    ((run inputs seedState).transactions.map (fun t => t.id)).Nodup := by
  have h := run_ids_decreasing inputs seedState hmono (by simp [seedState])
    (by simp [seedState])
  exact ⟨h, h.imp ne_of_gt⟩

/-- C8 amended witness: two transfers with clock values 1 and 2. -/
theorem tx_ids_distinct_monotone_witness :
    ((run [(1, ⟨"mpesa_kes_1", "mpesa_kes_2", "100", "", ""⟩),
           (2, ⟨"bank_usd_1", "bank_usd_2", "100", "", ""⟩)]
        seedState).transactions.map (fun t => t.id)).Pairwise (· > ·) ∧
    ((run [(1, ⟨"mpesa_kes_1", "mpesa_kes_2", "100", "", ""⟩),
           (2, ⟨"bank_usd_1", "bank_usd_2", "100", "", ""⟩)]
        seedState).transactions.map (fun t => t.id)).Nodup :=
  tx_ids_distinct_monotone
    [(1, ⟨"mpesa_kes_1", "mpesa_kes_2", "100", "", ""⟩),
     (2, ⟨"bank_usd_1", "bank_usd_2", "100", "", ""⟩)] (by decide)

/-- C8 counterexample: two successful transfers submitted in the same
millisecond (`Date.now()` returning 0 both times) yield two distinct
transactions in the log carrying the same identifier, so ids are not
unconditionally unique. -/
theorem tx_id_collision :
    ∃ t1 t2 : Transaction,
      t1 ∈ (run [(0, ⟨"mpesa_kes_1", "mpesa_kes_2", "100", "", ""⟩),
            (0, ⟨"bank_usd_1", "bank_usd_2", "100", "", ""⟩)] seedState).transactions ∧
      t2 ∈ (run [(0, ⟨"mpesa_kes_1", "mpesa_kes_2", "100", "", ""⟩),
            (0, ⟨"bank_usd_1", "bank_usd_2", "100", "", ""⟩)] seedState).transactions ∧
      (run [(0, ⟨"mpesa_kes_1", "mpesa_kes_2", "100", "", ""⟩),
            (0, ⟨"bank_usd_1", "bank_usd_2", "100", "", ""⟩)] seedState).transactions.length
        = 2 ∧
      t1 ≠ t2 ∧ t1.id = t2.id := by
  refine ⟨mkTransaction 0 ⟨"mpesa_kes_1", "mpesa_kes_2", "100", "", ""⟩
      ⟨"mpesa_kes_1", "Mpesa_KES_1", .KES, 2500000⟩
      ⟨"mpesa_kes_2", "Mpesa_KES_2", .KES, 1800000⟩ 100 100 1,
    mkTransaction 0 ⟨"bank_usd_1", "bank_usd_2", "100", "", ""⟩
      ⟨"bank_usd_1", "Bank_USD_1", .USD, 45000⟩
      ⟨"bank_usd_2", "Bank_USD_2", .USD, 78000⟩ 100 100 1,
    by decide, by decide, by decide, by decide, by decide⟩

lemma sumBal_nil (k : Currency) : sumBal [] k = 0 := rfl

lemma sumBal_cons (a : Account) (l : List Account) (k : Currency) :
    sumBal (a :: l) k = (if a.currency = k then a.balance else 0) + sumBal l k := by
  unfold sumBal
  rw [List.map_cons, List.sum_cons]

lemma sumBal_eq_zero {l : List Account} {k : Currency}
    (h : l.any (fun a => a.currency == k) = false) : sumBal l k = 0 := by
  induction l with
  | nil => rfl
  | cons a l ih =>
    rw [List.any_cons, Bool.or_eq_false_iff] at h
    rw [sumBal_cons, ih h.2, if_neg (by simpa using h.1), zero_add]

lemma foldl_totStep (l : List Account) (t : Currency → Option ℚ) (k : Currency) :
    l.foldl totStep t k =
      if l.any (fun x => x.currency == k) then some ((t k).getD 0 + sumBal l k)
      else t k := by
  induction l generalizing t with
  | nil => simp [sumBal_nil]
  | cons a l ih =>
    rw [List.foldl_cons, ih (totStep t a)]
    by_cases hak : a.currency = k
    · have htk : totStep t a k = some ((t k).getD 0 + a.balance) := by
        unfold totStep
        rw [if_pos hak.symm, hak]
      by_cases hl : l.any (fun x => x.currency == k) = true
      · rw [if_pos hl, htk, if_pos (by simp [hak]), sumBal_cons, if_pos hak]
        simp only [Option.getD_some]
        rw [add_assoc]
      · rw [if_neg hl, htk, if_pos (by simp [hak]), sumBal_cons, if_pos hak,
          sumBal_eq_zero (by simpa using hl)]
        simp
    · have htk : totStep t a k = t k := by
        unfold totStep
        rw [if_neg (fun hh => hak hh.symm)]
      have hcons : ((a :: l).any (fun x => x.currency == k)) =
          (l.any (fun x => x.currency == k)) := by
        simp [List.any_cons, hak]
      rw [htk, hcons, sumBal_cons, if_neg hak, zero_add]

lemma sum_map_add_split (f g : Account → ℚ) (l : List Account) :
    (l.map (fun x => f x + g x)).sum = (l.map f).sum + (l.map g).sum := by
  induction l with
  | nil => simp
  | cons a l ih =>
    simp only [List.map_cons, List.sum_cons, ih]
    ring

lemma sum_map_single_support (δ : Account → ℚ) (l : List Account) (u : Account)
    (hu : u ∈ l) (hnodup : (l.map (fun a => a.id)).Nodup)
    (hz : ∀ x ∈ l, x.id ≠ u.id → δ x = 0) :
    (l.map δ).sum = δ u := by
  induction l with
  | nil => cases hu
  | cons b l ih =>
    rw [List.map_cons] at hnodup
    have hnd := List.nodup_cons.mp hnodup
    rw [List.map_cons, List.sum_cons]
    rcases List.mem_cons.mp hu with rfl | hu'
    · have hrest : (l.map δ).sum = 0 := by
        apply List.sum_eq_zero
        intro y hy
        rw [List.mem_map] at hy
        obtain ⟨x, hx, rfl⟩ := hy
        apply hz x (List.mem_cons_of_mem _ hx)
        intro hxe
        exact hnd.1 (hxe ▸ List.mem_map_of_mem (fun a => a.id) hx)
      rw [hrest, add_zero]
    · have hbz : δ b = 0 := by
        apply hz b (List.mem_cons_self b l)
        intro hbe
        exact hnd.1 (hbe ▸ List.mem_map_of_mem (fun a => a.id) hu')
      rw [hbz, zero_add]
      exact ih hu' hnd.2 (fun x hx => hz x (List.mem_cons_of_mem _ hx))

/-- C10: a successful transfer between two accounts of the same currency
leaves the derived currency-totals mapping `getTotalByCurrency` unchanged:
the identical amount is debited and credited within one currency group. -/
theorem same_currency_totals_preserved (now : ℤ) (s s' : LedgerState)
    (fromAcc toAcc : Account)
    (hnodup : (s.accounts.map (fun a => a.id)).Nodup)
    (hfa : s.accounts.find? (fun acc => acc.id == s.transferForm.fromAccount) = some fromAcc)
    (hfb : s.accounts.find? (fun acc => acc.id == s.transferForm.toAccount) = some toAcc)
    (hcur : fromAcc.currency = toAcc.currency)
    (hsucc : handleTransfer now s = .success s') :
    getTotalByCurrency s'.accounts = getTotalByCurrency s.accounts := by
  obtain ⟨a, p, fromAcc', toAcc', hp, ha, hne, hfa', hfb', hbal, hconv, hs'⟩ :=
    handleTransfer_success_inv hsucc
  rw [hfa] at hfa'
  injection hfa' with hfa'
  rw [hfb] at hfb'
  injection hfb' with hfb'
  subst hfa'
  subst hfb'
  have hp1 : p.1 = a := by
    have heq := convPair_eq_of_rate ha (r := 1) (by rw [if_pos hcur])
    rw [heq] at hconv
    injection hconv with hconv
    rw [← hconv, mul_one]
  subst hs'
  have hfromid : fromAcc.id = s.transferForm.fromAccount := by
    simpa using List.find?_some hfa
  have htoid : toAcc.id = s.transferForm.toAccount := by
    simpa using List.find?_some hfb
  funext k
  unfold getTotalByCurrency
  rw [foldl_totStep, foldl_totStep]
  have hany : ((s.accounts.map (updateBalances s.transferForm a p.1)).any
      (fun x => x.currency == k)) = (s.accounts.any (fun x => x.currency == k)) := by
    rw [List.any_map]
    have hcomp : ((fun x : Account => x.currency == k) ∘ updateBalances s.transferForm a p.1)
        = fun x : Account => x.currency == k := by
      funext x
      simp [Function.comp, updateBalances_currency]
    rw [hcomp]
  have hsum : sumBal (s.accounts.map (updateBalances s.transferForm a p.1)) k
      = sumBal s.accounts k := by
    unfold sumBal
    rw [List.map_map]
    have hpt : ((fun x : Account => if x.currency = k then x.balance else 0) ∘
          updateBalances s.transferForm a p.1) =
        fun x : Account =>
          (if x.currency = k then x.balance else 0) +
          ((if x.currency = k ∧ x.id = s.transferForm.fromAccount then -a else 0) +
           (if x.currency = k ∧ x.id = s.transferForm.toAccount then a else 0)) := by
      funext x
      show (if (updateBalances s.transferForm a p.1 x).currency = k
            then (updateBalances s.transferForm a p.1 x).balance else 0) = _
      rw [updateBalances_currency]
      unfold updateBalances
      by_cases hx1 : x.id = s.transferForm.fromAccount
      · rw [if_pos hx1]
        have hx2 : ¬(x.id = s.transferForm.toAccount) := by
          rw [hx1]
          exact hne
        by_cases hk : x.currency = k
        · rw [if_pos hk, if_pos hk, if_pos ⟨hk, hx1⟩, if_neg (fun hh => hx2 hh.2)]
          show x.balance - a = x.balance + (-a + 0)
          ring
        · rw [if_neg hk, if_neg hk, if_neg (fun hh => hk hh.1), if_neg (fun hh => hk hh.1)]
          ring
      · rw [if_neg hx1]
        by_cases hx2 : x.id = s.transferForm.toAccount
        · rw [if_pos hx2]
          by_cases hk : x.currency = k
          · rw [if_pos hk, if_pos hk, if_neg (fun hh => hx1 hh.2), if_pos ⟨hk, hx2⟩]
            show x.balance + p.1 = x.balance + (0 + a)
            rw [hp1]
            ring
          · rw [if_neg hk, if_neg hk, if_neg (fun hh => hk hh.1), if_neg (fun hh => hk hh.1)]
            ring
        · rw [if_neg hx2]
          rw [if_neg (show ¬(x.currency = k ∧ x.id = s.transferForm.fromAccount) from
                fun hh => hx1 hh.2),
              if_neg (show ¬(x.currency = k ∧ x.id = s.transferForm.toAccount) from
                fun hh => hx2 hh.2)]
          ring
    rw [hpt, sum_map_add_split, sum_map_add_split]
    have hd1 : (s.accounts.map
        (fun x : Account => if x.currency = k ∧ x.id = s.transferForm.fromAccount
          then -a else 0)).sum =
        (if fromAcc.currency = k ∧ fromAcc.id = s.transferForm.fromAccount then -a else 0) := by
      apply sum_map_single_support _ _ fromAcc (List.mem_of_find?_eq_some hfa) hnodup
      intro x hx hxid
      rw [if_neg]
      intro hh
      exact hxid (by rw [hh.2, hfromid])
    have hd2 : (s.accounts.map
        (fun x : Account => if x.currency = k ∧ x.id = s.transferForm.toAccount
          then a else 0)).sum =
        (if toAcc.currency = k ∧ toAcc.id = s.transferForm.toAccount then a else 0) := by
      apply sum_map_single_support _ _ toAcc (List.mem_of_find?_eq_some hfb) hnodup
      intro x hx hxid
      rw [if_neg]
      intro hh
      exact hxid (by rw [hh.2, htoid])
    rw [hd1, hd2]
    by_cases hk : fromAcc.currency = k
    · rw [if_pos ⟨hk, hfromid⟩, if_pos ⟨hcur ▸ hk, htoid⟩]
      ring
    · rw [if_neg (fun hh => hk hh.1), if_neg (fun hh => hk (hcur ▸ hh.1))]
      ring
  rw [hany, hsum]

lemma txMatches_iff (filters : Filters) (tx : Transaction) :
    txMatches filters tx = true ↔ specMatches filters tx := by
  unfold txMatches specMatches
  by_cases hacc : filters.account = "" <;>
    by_cases hcur : filters.currency = "" <;>
      cases hdf : filters.dateFrom <;>
        cases hdt : filters.dateTo <;>
          simp [hacc, hcur, hdf, hdt, and_assoc]

/-- C5: a transaction appears in the filtered output iff it is in the log
and every populated filter field matches it (account substring, currency
equality, date-from at start of day, date-to at 23:59:59), and the output
is a sublist of the log, preserving its newest-first order. -/
theorem filteredTransactions_spec (filters : Filters) (txs : List Transaction) :
    (∀ tx, tx ∈ filteredTransactions filters txs ↔ tx ∈ txs ∧ specMatches filters tx) ∧
    List.Sublist (filteredTransactions filters txs) txs := by
  refine ⟨fun tx => ?_, List.filter_sublist txs⟩
  rw [filteredTransactions, List.mem_filter, txMatches_iff]

lemma filter_subset_of_imp {p q : Transaction → Bool} (l : List Transaction)
    (h : ∀ x, p x = true → q x = true) : l.filter p ⊆ l.filter q := by
  intro x hx
  rw [List.mem_filter] at hx ⊢
  exact ⟨hx.1, h x hx.2⟩

/-- C6: filtering is monotonic: replacing any one empty filter field by a
non-empty value can only shrink the filtered result set. -/
theorem filter_monotone (txs : List Transaction) (f : Filters) :
    (∀ v : String, v ≠ "" → f.account = "" →
      filteredTransactions { f with account := v } txs ⊆ filteredTransactions f txs) ∧
    (∀ v : String, v ≠ "" → f.currency = "" →
      filteredTransactions { f with currency := v } txs ⊆ filteredTransactions f txs) ∧
    (∀ d : ℤ, f.dateFrom = none →
      filteredTransactions { f with dateFrom := some d } txs ⊆
        filteredTransactions f txs) ∧
    (∀ d : ℤ, f.dateTo = none →
      filteredTransactions { f with dateTo := some d } txs ⊆
        filteredTransactions f txs) := by
  refine ⟨fun v hv hempty => filter_subset_of_imp txs fun tx htx => ?_,
    fun v hv hempty => filter_subset_of_imp txs fun tx htx => ?_,
    fun d hempty => filter_subset_of_imp txs fun tx htx => ?_,
    fun d hempty => filter_subset_of_imp txs fun tx htx => ?_⟩ <;>
    rw [txMatches_iff] at htx ⊢ <;> obtain ⟨h1, h2, h3, h4⟩ := htx
  · exact ⟨fun hne => absurd hempty hne, h2, h3, h4⟩
  · exact ⟨h1, fun hne => absurd hempty hne, h3, h4⟩
  · refine ⟨h1, h2, fun d' hd' => ?_, h4⟩
    rw [hempty] at hd'
    exact Option.noConfusion hd'
  · refine ⟨h1, h2, h3, fun d' hd' => ?_⟩
    rw [hempty] at hd'
    exact Option.noConfusion hd'

/-- C7: the spec's Example 1: transferring 100000 from Mpesa_KES_1 (KES,
balance 2500000) to Bank_USD_1 (USD, balance 45000) with no scheduled date
succeeds, leaving 2400000 KES at the source, applying rate 0.0067, leaving
45000 + 100000 * 0.0067 = 45670 USD at the destination, with a Completed
transaction recorded. -/
theorem transfer_example_one :
    ∃ s', handleTransfer 0
        { seedState with
          transferForm := ⟨"mpesa_kes_1", "bank_usd_1", "100000", "", ""⟩ } =
        .success s' ∧
      s'.accounts.find? (fun acc => acc.id == "mpesa_kes_1") =
        some ⟨"mpesa_kes_1", "Mpesa_KES_1", .KES, 2400000⟩ ∧
      s'.accounts.find? (fun acc => acc.id == "bank_usd_1") =
        some ⟨"bank_usd_1", "Bank_USD_1", .USD, 45670⟩ ∧
      (45670 : ℚ) = 45000 + 100000 * 0.0067 ∧
      FX_RATES "KES-USD" = some 0.0067 ∧
      ∃ tx, s'.transactions = [tx] ∧ tx.status = .Completed ∧
        tx.amount = 100000 ∧ tx.convertedAmount = 670 ∧ tx.fxRate = 0.0067 := by
  refine ⟨run [(0, ⟨"mpesa_kes_1", "bank_usd_1", "100000", "", ""⟩)] seedState,
    by decide, by decide, by decide, by decide, by decide,
    mkTransaction 0 ⟨"mpesa_kes_1", "bank_usd_1", "100000", "", ""⟩
      ⟨"mpesa_kes_1", "Mpesa_KES_1", .KES, 2500000⟩
      ⟨"bank_usd_1", "Bank_USD_1", .USD, 45000⟩ 100000 670 0.0067,
    by decide, by decide, by decide, by decide, by decide⟩

/-- C10 witness: a concrete same-currency transfer from the seed state
leaves the currency totals unchanged. -/
theorem same_currency_totals_preserved_witness :
    getTotalByCurrency
        (run [(0, ⟨"mpesa_kes_1", "mpesa_kes_2", "100", "", ""⟩)] seedState).accounts =
      getTotalByCurrency seedState.accounts :=
  same_currency_totals_preserved 0
    { seedState with transferForm := ⟨"mpesa_kes_1", "mpesa_kes_2", "100", "", ""⟩ }
    (run [(0, ⟨"mpesa_kes_1", "mpesa_kes_2", "100", "", ""⟩)] seedState)
    ⟨"mpesa_kes_1", "Mpesa_KES_1", .KES, 2500000⟩
    ⟨"mpesa_kes_2", "Mpesa_KES_2", .KES, 1800000⟩
    (by decide) (by decide) (by decide) (by decide) (by decide)
